import Mathlib

/-!
Verification development for the esmf-trace span pipeline.

The definitions below are a shallow embedding of the core logic of
src/access/esmf_trace: the event-to-span reconstructor
(rows_from_bt2_iterator in ctf_parser.py), the adjacent-span merger
(df_for_selected_streams in ctf_parser.py), the per-group index slicer
(stats.py and postprocess.py), the multi-run case summariser
(postprocess.py) and the batch job scheduler (batch_runs.py).
Python dicts keyed by integers or strings are embedded as total
functions into Option, Python lists as Lean lists, and Python ints as
Lean Int (timestamps, depths) or Nat (pet indices).
-/

namespace EsmfTrace

/-- An open frame recorded by the reconstructor on an enter event.
Mirrors the dict built at ctf_parser.py lines 58 to 64. -/
structure Frame where
  component : String
  start : Int
  depth : Int
  pet : Nat
  model_component : String
deriving DecidableEq

/-- A completed span row, the open frame extended with the values set
on a matched exit (ctf_parser.py lines 70 to 72). -/
structure SpanRow where
  component : String
  start : Int
  depth : Int
  pet : Nat
  model_component : String
  end_ : Int
  duration_s : Int
deriving DecidableEq

/-- The name and payload of a raw trace event, after the collaborating
bt2_utils parsers have been applied. The three structured constructors
cover the names treated specially at ctf_parser.py lines 40 to 48; the
last covers every other event name. -/
inductive EvName where
  | defineRegion (id : Int) (rname : String)
  | regionidEnter (id : Int)
  | regionidExit (id : Int)
  | otherName (n : String)
deriving DecidableEq

/-- A bt2 message: either not an event message, or an event carrying a
pet id (stream id), an optional clock timestamp and a name. -/
inductive Msg where
  | nonEvent
  | event (pet : Nat) (ts : Option Int) (name : EvName)
deriving DecidableEq

/-- State threaded by rows_from_bt2_iterator: the per-pet region maps,
the global fallback map, the per-pet open-frame table, the per-pet call
stacks, the per-pet depth counters and the accumulated output rows.
The stacks field carries a trailing underscore because its Python name
collides with a reserved attribute name here. -/
structure PState where
  region_maps : Nat → Int → Option String
  global_map : Int → Option String
  active : Nat → String → Option Frame
  stacks_ : Nat → List String
  depth : Nat → Int
  out : List SpanRow

/-- Initial state: empty defaultdicts and an empty output list. -/
def initPState : PState where
  region_maps := fun _ _ => none
  global_map := fun _ => none
  active := fun _ _ => none
  stacks_ := fun _ => []
  depth := fun _ => 0
  out := []

/-- Pointwise update of a per-pet, integer-keyed map of names. -/
def updRegion (f : Nat → Int → Option String) (p : Nat) (i : Int) (v : String) :
    Nat → Int → Option String :=
  fun p2 i2 => if p2 = p ∧ i2 = i then some v else f p2 i2

/-- The setdefault on the global map (ctf_parser.py line 43): bind the
id to the new name only when it is not yet bound. -/
def setdefaultGlobal (g : Int → Option String) (i : Int) (v : String) :
    Int → Option String :=
  fun i2 => if i2 = i then some ((g i).getD v) else g i2

/-- Pointwise update of the per-pet open-frame table. -/
def updActive (f : Nat → String → Option Frame) (p : Nat) (c : String)
    (v : Option Frame) : Nat → String → Option Frame :=
  fun p2 c2 => if p2 = p ∧ c2 = c then v else f p2 c2

/-- Pointwise update of a per-pet value. -/
def updPet {α : Type} (f : Nat → α) (p : Nat) (v : α) : Nat → α :=
  fun p2 => if p2 = p then v else f p2

/-- Name resolution for a region transition (ctf_parser.py line 47):
the unit-local map, else the global fallback, else a placeholder. -/
def resolveRegion (s : PState) (pet : Nat) (id : Int) : String :=
  (s.region_maps pet id).getD ((s.global_map id).getD ("region_" ++ toString id))

/-- The enter branch (ctf_parser.py lines 55 to 65): push the component
on the call stack, record an open frame at the current depth with the
joined hierarchical path, then increment the depth counter. -/
def enterStep (s : PState) (pet : Nat) (ts : Int) (component : String) : PState :=
  let stk := s.stacks_ pet ++ [component]
  let fr : Frame :=
    { component := component
      start := ts
      depth := s.depth pet
      pet := pet
      model_component := String.intercalate "/" stk }
  { s with
    stacks_ := updPet s.stacks_ pet stk
    active := updActive s.active pet component (some fr)
    depth := updPet s.depth pet (s.depth pet + 1) }

/-- The exit branch (ctf_parser.py lines 66 to 75): pop the open frame
for the component if any, decrement the depth counter flooring at zero,
emit a completed row when a frame was found, and pop the call stack
when its top equals the exiting component. -/
def exitStep (s : PState) (pet : Nat) (ts : Int) (component : String) : PState :=
  let frameOpt := s.active pet component
  let out2 :=
    match frameOpt with
    | some f =>
        s.out ++ [{ component := f.component, start := f.start, depth := f.depth,
                    pet := f.pet, model_component := f.model_component,
                    end_ := ts, duration_s := ts - f.start }]
    | none => s.out
  let stk := s.stacks_ pet
  let stk2 := if stk.getLast? = some component then stk.dropLast else stk
  { s with
    active := updActive s.active pet component none
    depth := updPet s.depth pet (max 0 (s.depth pet - 1))
    out := out2
    stacks_ := updPet s.stacks_ pet stk2 }

/-- Whitelist test (ctf_parser.py line 30): with no whitelist every pet
is kept, otherwise only listed pets. -/
def allowPet (wl : Option (List Nat)) (p : Nat) : Bool :=
  match wl with
  | none => true
  | some l => p ∈ l

/-- One iteration of the message loop of rows_from_bt2_iterator
(ctf_parser.py lines 23 to 75). Non-events, filtered pets and events
without a timestamp are skipped; define_region events register names;
regionid transitions resolve their component name and behave as the
resolved enter or exit; any other name is kept only when it ends in
the enter or exit marker. -/
def stepMsg (wl : Option (List Nat)) (s : PState) (m : Msg) : PState :=
  match m with
  | Msg.nonEvent => s
  | Msg.event pet ts name =>
      if allowPet wl pet then
        match ts with
        | none => s
        | some t =>
            match name with
            | EvName.defineRegion id rname =>
                { s with
                  region_maps := updRegion s.region_maps pet id rname
                  global_map := setdefaultGlobal s.global_map id rname }
            | EvName.regionidEnter id => enterStep s pet t (resolveRegion s pet id)
            | EvName.regionidExit id => exitStep s pet t (resolveRegion s pet id)
            | EvName.otherName n =>
                if n.endsWith "_enter" then enterStep s pet t (n.dropRight 6)
                else if n.endsWith "_exit" then exitStep s pet t (n.dropRight 5)
                else s
      else s

/-- Fold of the message loop from a given state. -/
def runMsgs (wl : Option (List Nat)) (s : PState) (msgs : List Msg) : PState :=
  msgs.foldl (stepMsg wl) s

/-- rows_from_bt2_iterator: process all messages from the empty state
and return the emitted span rows in order. -/
def rows_from_bt2_iterator (wl : Option (List Nat)) (msgs : List Msg) : List SpanRow :=
  (runMsgs wl initPState msgs).out

/-- A dataframe row entering the adjacent-merge step of
df_for_selected_streams (ctf_parser.py lines 150 and 164 to 188). -/
structure MSpan where
  model_component : String
  start : Int
  end_ : Int
  duration_s : Int
  depth : Int
  pet : Nat
deriving DecidableEq

/-- The sort key of the merge step (ctf_parser.py line 168): pet, then
model_component, then depth, then start, lexicographically. -/
def spanKey (a : MSpan) : Lex (Nat × Lex (String × Lex (Int × Int))) :=
  toLex (a.pet, toLex (a.model_component, toLex (a.depth, a.start)))

/-- Boolean comparison realising the sort order of the merge step. -/
def spanLe (a b : MSpan) : Bool :=
  decide (spanKey a ≤ spanKey b)

/-- The merge guard (ctf_parser.py lines 173 to 179): same pet, same
model_component, same depth, and gap between the next start and the
current end at most the threshold. -/
def canMerge (gap : Int) (cur r : MSpan) : Prop :=
  r.pet = cur.pet ∧ r.model_component = cur.model_component ∧
    r.depth = cur.depth ∧ r.start - cur.end_ ≤ gap

instance (gap : Int) (cur r : MSpan) : Decidable (canMerge gap cur r) := by
  unfold canMerge; infer_instance

/-- Absorbing one following row into the current row (ctf_parser.py
lines 180 to 181): the end is replaced, the durations are added, and
all other fields of the current row are kept. -/
def absorb (cur r : MSpan) : MSpan :=
  { cur with end_ := r.end_, duration_s := cur.duration_s + r.duration_s }

/-- The scan over the sorted rows with an explicit current row
(ctf_parser.py lines 169 to 187). -/
def mergeGo (gap : Int) (cur : MSpan) : List MSpan → List MSpan
  | [] => [cur]
  | r :: rs =>
      if canMerge gap cur r then mergeGo gap (absorb cur r) rs
      else cur :: mergeGo gap r rs

/-- The scan started on a possibly empty row list. -/
def mergeScan (gap : Int) : List MSpan → List MSpan
  | [] => []
  | r :: rs => mergeGo gap r rs

/-- The whole adjacent-merge step: sort by (pet, model_component,
depth, start), then run the scan. -/
def mergeAdjacent (gap : Int) (l : List MSpan) : List MSpan :=
  mergeScan gap (l.mergeSort spanLe)

/-- Equality of the four fields that make up the sort key of a row.
Absorbing rows into the current row preserves these fields. -/
def sameKS (a b : MSpan) : Prop :=
  a.pet = b.pet ∧ a.model_component = b.model_component ∧
    a.depth = b.depth ∧ a.start = b.start

/-- A prepared statistics row: the (component, execution unit) keyed
table built by prepare_view in stats.py, with durations in seconds. -/
structure SRow where
  model_component : String
  pet : Nat
  start : Int
  duration_s : ℚ
deriving DecidableEq

/-- The series key of the per-group slicer: (component, pet). -/
def srowKey (r : SRow) : String × Nat :=
  (r.model_component, r.pet)

/-- Clamp one Python slice bound to the list length: a negative bound
counts from the end and the result always lies between 0 and len. -/
def clampIdx (len : Nat) (i : Int) : Nat :=
  if i < 0 then ((len : Int) + i).toNat else min len i.toNat

/-- Python list slicing l[start:end] with step 1, where a missing bound
means the corresponding extreme of the list. -/
def pySlice {α : Type} (start? end? : Option Int) (l : List α) : List α :=
  let n := l.length
  let s := match start? with | none => 0 | some i => clampIdx n i
  let e := match end? with | none => n | some i => clampIdx n i
  (l.take e).drop s

/-- Helper for dedupFirst: keep the keys not seen yet, in order. -/
def dedupSeen {κ : Type} [DecidableEq κ] (seen : List κ) : List κ → List κ
  | [] => []
  | k :: ks => if k ∈ seen then dedupSeen seen ks else k :: dedupSeen (k :: seen) ks

/-- The distinct keys of a list in order of first appearance, as
produced by a pandas groupby with sort disabled. -/
def dedupFirst {κ : Type} [DecidableEq κ] (l : List κ) : List κ :=
  dedupSeen [] l

/-- Stable comparison of rows by start, the order column of the
slicer. -/
def startLe (a b : SRow) : Bool :=
  decide (a.start ≤ b.start)

/-- The per-group index slicer (_slice_per_group in stats.py lines 29
to 47, and _slice_per_series_iloc in postprocess.py lines 33 to 55):
with both bounds unset the table is returned unchanged; otherwise each
group, in order of first appearance, is sorted stably by start and
sliced, and the slices are concatenated. -/
def slicePerGroup (start? end? : Option Int) (rows : List SRow) : List SRow :=
  if start? = none ∧ end? = none then rows
  else
    (dedupFirst (rows.map srowKey)).flatMap
      (fun k => pySlice start? end? ((rows.filter (fun r => srowKey r = k)).mergeSort startLe))

/-- Arithmetic mean of a list of rationals. -/
def listMean (l : List ℚ) : ℚ :=
  l.sum / (l.length : ℚ)

/-- Minimum of a nonempty list, with a junk value on the empty list
(this branch is never reached from a groupby, whose groups are
nonempty by construction). -/
def listMin (l : List ℚ) : ℚ :=
  match l with
  | [] => 0
  | x :: xs => xs.foldl min x

/-- Maximum of a nonempty list, with a junk value on the empty list. -/
def listMax (l : List ℚ) : ℚ :=
  match l with
  | [] => 0
  | x :: xs => xs.foldl max x

/-- A downstream aggregated view over the sliced table, one row per
(component, pet) group present in the table, as produced by
stats_by_component_pet in stats.py: group keys paired with the count
and mean duration of the group. -/
def aggByKey (rows : List SRow) : List ((String × Nat) × Nat × ℚ) :=
  (dedupFirst (rows.map srowKey)).map
    (fun k =>
      let g := rows.filter (fun r => srowKey r = k)
      (k, g.length, listMean (g.map (fun r => r.duration_s))))

/-- A loaded and tagged time-series row of the multi-run summariser
(_load_timeseries_json and _summarise_case in postprocess.py), for a
single case: output index, component, pet and duration in seconds. -/
structure TRow where
  output : Nat
  model_component : String
  pet : Nat
  duration_s : ℚ
deriving DecidableEq

/-- A per-output aggregate row of _summarise_case (postprocess.py
lines 210 to 237): one row per (output, component) group with hits,
tmin, tmax, tavg, tmedian omitted, and the pet statistics. -/
structure PerOutputRow where
  output : Nat
  model_component : String
  hits : ℚ
  tmin : ℚ
  tmax : ℚ
  tavg : ℚ
deriving DecidableEq

/-- A per-component combine row of _summarise_case (postprocess.py
lines 249 to 263). -/
structure CombineRow where
  model_component : String
  hits : ℚ
  tmin : ℚ
  tmax : ℚ
  tavg : ℚ
deriving DecidableEq

/-- The per-output aggregation of _summarise_case: group the rows of
one case by (output, component) and aggregate the durations with
count, min, max and mean. -/
def perOutputRows (rows : List TRow) : List PerOutputRow :=
  (dedupFirst (rows.map (fun r => (r.output, r.model_component)))).map
    (fun k =>
      let g := rows.filter (fun r => (r.output, r.model_component) = k)
      let ds := g.map (fun r => r.duration_s)
      { output := k.1, model_component := k.2, hits := (g.length : ℚ),
        tmin := listMin ds, tmax := listMax ds, tavg := listMean ds })

/-- The per-component combine aggregation of _summarise_case: group the
per-output rows by component and combine with mean of hits, min of
tmin, max of tmax and mean of tavg. -/
def combineRows (po : List PerOutputRow) : List CombineRow :=
  (dedupFirst (po.map (fun r => r.model_component))).map
    (fun c =>
      let g := po.filter (fun r => r.model_component = c)
      { model_component := c
        hits := listMean (g.map (fun r => r.hits))
        tmin := listMin (g.map (fun r => r.tmin))
        tmax := listMax (g.map (fun r => r.tmax))
        tavg := listMean (g.map (fun r => r.tavg)) })

/-- The combine rows of one case, from its raw tagged rows. -/
def summariseCaseCombine (rows : List TRow) : List CombineRow :=
  combineRows (perOutputRows rows)

/-- One discovered output directory of a declared run, together with
the filesystem facts the batch scheduler consults for it: whether a
qualifying traceout directory is present (_find_traceout_dir in
batch_runs.py), whether each of the two expected postprocessing
artifacts is already on disk (_expected_outputs_exist), and whether
the metadata and stream files open successfully when the job runs
(open_selected_streams in ctf_parser.py lines 85 to 94). -/
structure BatchOutput where
  odName : String
  hasTraceout : Bool
  tsJsonExists : Bool
  flameHtmlExists : Bool
  streamsOk : Bool
deriving DecidableEq

/-- A declared run after path resolution and output discovery: its
case name and its discovered, index-filtered output directories
(_gather_outputs in batch_runs.py). -/
structure BatchRun where
  runName : String
  outputs : List BatchOutput
deriving DecidableEq

/-- A scheduled unit of work: one output directory of one run. -/
structure Job where
  runName : String
  output : BatchOutput
deriving DecidableEq

/-- _expected_outputs_exist (batch_runs.py lines 15 to 20): both the
timeseries json and the flamegraph html must already exist. -/
def expected_outputs_exist (o : BatchOutput) : Bool :=
  o.tsJsonExists && o.flameHtmlExists

/-- The inner loop of run_batch_jobs over the output directories of one
run (batch_runs.py lines 78 to 99): a missing traceout directory
raises, an output whose expected artifacts already exist is skipped,
every other output becomes a job. -/
def gatherOutputs (rn : String) : List BatchOutput → Except String (List Job)
  | [] => Except.ok []
  | o :: os =>
      if o.hasTraceout = false then Except.error "no traceout dir found"
      else if expected_outputs_exist o then gatherOutputs rn os
      else (gatherOutputs rn os).map (fun js => { runName := rn, output := o } :: js)

/-- The per-run part of run_batch_jobs (batch_runs.py lines 65 to 99):
a run with no discovered output directories raises, otherwise its
outputs are processed in order. -/
def gatherRunJobs (r : BatchRun) : Except String (List Job) :=
  if r.outputs.isEmpty then Except.error "no output dirs found"
  else gatherOutputs r.runName r.outputs

/-- The whole job-gathering loop of run_batch_jobs: runs are processed
in order and the first raised error aborts the batch, with no job
submitted. -/
def gatherJobs : List BatchRun → Except String (List Job)
  | [] => Except.ok []
  | r :: rs =>
      match gatherRunJobs r with
      | Except.error e => Except.error e
      | Except.ok js => (gatherJobs rs).map (fun js2 => js ++ js2)

/-- run_one_job (batch_runs.py lines 45 to 49): the pipeline run is
wrapped so that any raised error, such as the missing metadata or
stream file raised by open_selected_streams, is caught and turned
into a failure record for that job alone. -/
def runOneJob (j : Job) : Nat × String :=
  if j.output.streamsOk then (0, "success!")
  else (1, "Failed: stream file not found")

/-- The execution phase of run_batch_jobs: every gathered job is
submitted to the pool and yields one outcome record; the worker bound
only limits parallelism and never changes which jobs run or their
results. -/
def runBatchJobs (maxWorkers : Nat) (runs : List BatchRun) :
    Except String (List (Nat × String)) :=
  let _ := maxWorkers
  (gatherJobs runs).map (fun js => js.map runOneJob)

/-- Recogniser for a define_region event of a given unit and region id,
used to state which events may rebind a unit-local region name. -/
def isDefineFor (p : Nat) (i : Int) : Msg → Bool
  | Msg.event p2 _ (EvName.defineRegion i2 _) => p2 = p && i2 = i
  | _ => false

/-- The event sequence of the nested same-name scenario: one region
definition, two enters and two exits of region 1 on unit 0. -/
def c1Events : List Msg :=
  [ Msg.event 0 (some 0) (EvName.defineRegion 1 "OCN")
  , Msg.event 0 (some 0) (EvName.regionidEnter 1)
  , Msg.event 0 (some 1000000) (EvName.regionidEnter 1)
  , Msg.event 0 (some 2000000) (EvName.regionidExit 1)
  , Msg.event 0 (some 3000000) (EvName.regionidExit 1) ]

/-- Two define_region events for the same id on the same unit with two
different names. -/
def c2Defines : List Msg :=
  [ Msg.event 0 (some 0) (EvName.defineRegion 1 "A")
  , Msg.event 0 (some 1) (EvName.defineRegion 1 "B") ]

/-- Events on unit 0 that contain no define_region for id 1. -/
def c2Later : List Msg :=
  [ Msg.event 0 (some 5) (EvName.regionidEnter 1)
  , Msg.event 0 (some 9) (EvName.regionidExit 1)
  , Msg.event 1 (some 12) (EvName.defineRegion 2 "ICE")
  , Msg.event 0 (some 15) (EvName.otherName "MED_enter") ]

/-- First span of the merge scenario: unit 2, component ATM, depth 0,
running from 0 to 1000. -/
def c6A : MSpan :=
  { model_component := "ATM", start := 0, end_ := 1000,
    duration_s := 1000, depth := 0, pet := 2 }

/-- Second span of the merge scenario: same unit, component and depth,
starting 500 ns after the first one ends. -/
def c6B : MSpan :=
  { model_component := "ATM", start := 1500, end_ := 2500,
    duration_s := 1000, depth := 0, pet := 2 }

/-- Tagged rows of the summariser scenario: one case, one component,
two outputs with durations 1, 2, 3 and 4, 5, 6 seconds. -/
def c7Rows : List TRow :=
  [ { output := 0, model_component := "ATM", pet := 0, duration_s := 1 }
  , { output := 0, model_component := "ATM", pet := 1, duration_s := 2 }
  , { output := 0, model_component := "ATM", pet := 2, duration_s := 3 }
  , { output := 1, model_component := "ATM", pet := 0, duration_s := 4 }
  , { output := 1, model_component := "ATM", pet := 1, duration_s := 5 }
  , { output := 1, model_component := "ATM", pet := 2, duration_s := 6 } ]

/-- The three discovered outputs of the scheduler scenario: the middle
one already has both expected artifacts on disk. -/
def c8Out0 : BatchOutput :=
  { odName := "output000", hasTraceout := true, tsJsonExists := false,
    flameHtmlExists := false, streamsOk := true }

/-- Second output of the scheduler scenario, both artifacts present. -/
def c8Out1 : BatchOutput :=
  { odName := "output001", hasTraceout := true, tsJsonExists := true,
    flameHtmlExists := true, streamsOk := true }

/-- Third output of the scheduler scenario, one artifact present but
not the other, so it is not skipped. -/
def c8Out2 : BatchOutput :=
  { odName := "output002", hasTraceout := true, tsJsonExists := true,
    flameHtmlExists := false, streamsOk := true }

/-- The declared run of the scheduler scenario. -/
def c8Run : BatchRun :=
  { runName := "case", outputs := [c8Out0, c8Out1, c8Out2] }

/-- A declared run whose resolved directory contains no qualifying
output sub-directory. -/
def c3EmptyRun : BatchRun :=
  { runName := "bad", outputs := [] }

/-- A sibling run with one perfectly healthy output. -/
def c3GoodRun : BatchRun :=
  { runName := "good",
    outputs := [{ odName := "output000", hasTraceout := true, tsJsonExists := false,
                  flameHtmlExists := false, streamsOk := true }] }

/-- A gathered job whose stream file is missing when it runs. -/
def c3BadJob : Job :=
  { runName := "good",
    output := { odName := "output001", hasTraceout := true, tsJsonExists := false,
                flameHtmlExists := false, streamsOk := false } }

/-- A gathered sibling job whose resources are all present. -/
def c3GoodJob : Job :=
  { runName := "good",
    output := { odName := "output002", hasTraceout := true, tsJsonExists := false,
                flameHtmlExists := false, streamsOk := true } }

/-- Prepared rows of the slicing scenario: two series with one row
each, so that slicing from index 5 empties every series. -/
def c9Rows : List SRow :=
  [ { model_component := "ATM", pet := 0, start := 0, duration_s := 1 }
  , { model_component := "OCN", pet := 1, start := 0, duration_s := 2 } ]

theorem runMsgs_cons (wl : Option (List Nat)) (s : PState) (m : Msg) (ms : List Msg) :
    runMsgs wl s (m :: ms) = runMsgs wl (stepMsg wl s m) ms :=
  rfl

theorem stepMsg_region_maps_eq (wl : Option (List Nat)) (s : PState) (m : Msg)
    (p : Nat) (i : Int) (h : isDefineFor p i m = false) :
    (stepMsg wl s m).region_maps p i = s.region_maps p i := by
  cases m with
  | nonEvent => rfl
  | event pet ts name =>
    by_cases hw : allowPet wl pet = true
    · cases ts with
      | none => simp [stepMsg, hw]
      | some t =>
        cases name with
        | defineRegion id rn =>
          simp only [stepMsg, hw, if_true]
          show updRegion s.region_maps pet id rn p i = s.region_maps p i
          unfold updRegion
          rw [if_neg]
          rintro ⟨rfl, rfl⟩
          simp [isDefineFor] at h
        | regionidEnter id => simp [stepMsg, hw, enterStep]
        | regionidExit id => simp [stepMsg, hw, exitStep]
        | otherName n =>
          simp only [stepMsg, hw, if_true]
          split
          · simp [enterStep]
          · split
            · simp [exitStep]
            · rfl
    · simp [stepMsg, hw]

theorem stepMsg_global_map_pres (wl : Option (List Nat)) (s : PState) (m : Msg)
    (i : Int) (gn : String) (h : s.global_map i = some gn) :
    (stepMsg wl s m).global_map i = some gn := by
  cases m with
  | nonEvent => exact h
  | event pet ts name =>
    by_cases hw : allowPet wl pet = true
    · cases ts with
      | none => simpa [stepMsg, hw] using h
      | some t =>
        cases name with
        | defineRegion id rn =>
          simp only [stepMsg, hw, if_true]
          show setdefaultGlobal s.global_map id rn i = some gn
          unfold setdefaultGlobal
          by_cases hii : i = id
          · subst hii; rw [if_pos rfl, h]; rfl
          · rw [if_neg hii]; exact h
        | regionidEnter id => simpa [stepMsg, hw, enterStep] using h
        | regionidExit id => simpa [stepMsg, hw, exitStep] using h
        | otherName n =>
          simp only [stepMsg, hw, if_true]
          split
          · simpa [enterStep] using h
          · split
            · simpa [exitStep] using h
            · exact h
    · simpa [stepMsg, hw] using h

/-- Claim C2 (corrected): once a name is bound for an id in the
unit-local region map, processing further events preserves the binding
as long as none of them is a define_region event for that id on that
unit; the process-wide fallback binding for an id, once set, is
preserved by every event unconditionally. (A later define_region for
the same id on the same unit does rebind the unit-local name, see the
counterexample.) -/
theorem c2_local_binding_stable (wl : Option (List Nat)) (s : PState)
    (p : Nat) (i : Int) (nm gn : String) (msgs : List Msg)
    (hloc : s.region_maps p i = some nm)
    (hglob : s.global_map i = some gn)
    (hnodef : ∀ m ∈ msgs, isDefineFor p i m = false) :
    (runMsgs wl s msgs).region_maps p i = some nm ∧
    (runMsgs wl s msgs).global_map i = some gn := by
  induction msgs generalizing s with
  | nil => exact ⟨hloc, hglob⟩
  | cons m ms ih =>
    rw [runMsgs_cons]
    refine ih (stepMsg wl s m) ?_ ?_ (fun m2 hm2 => hnodef m2 (List.mem_cons_of_mem _ hm2))
    · rw [stepMsg_region_maps_eq wl s m p i (hnodef m (List.mem_cons_self m ms))]
      exact hloc
    · exact stepMsg_global_map_pres wl s m i gn hglob

/-- Claim C2, counterexample: after define_region(id=1,name="A") the
unit-local map of unit 0 binds id 1 to "A", yet a second
define_region(id=1,name="B") event rebinds it to "B", so the binding
does change. -/
theorem c2_redefinition_counterexample :
    (runMsgs none initPState (c2Defines.take 1)).region_maps 0 1 = some "A" ∧
    (runMsgs none initPState c2Defines).region_maps 0 1 ≠ some "A" ∧
    (runMsgs none initPState c2Defines).region_maps 0 1 = some "B" := by
  decide

/-- Claim C2, witness: a binding made by a define_region event survives
a concrete batch of later events that redefine nothing for unit 0 and
id 1. -/
theorem c2_local_binding_stable_witness :
    (runMsgs none initPState (c2Defines.take 1)).region_maps 0 1 = some "A" ∧
    (runMsgs none initPState (c2Defines.take 1)).global_map 1 = some "A" ∧
    (∀ m ∈ c2Later, isDefineFor 0 1 m = false) ∧
    (runMsgs none (runMsgs none initPState (c2Defines.take 1)) c2Later).region_maps 0 1 = some "A" ∧
    (runMsgs none (runMsgs none initPState (c2Defines.take 1)) c2Later).global_map 1 = some "A" := by
  have h := c2_local_binding_stable none (runMsgs none initPState (c2Defines.take 1))
    0 1 "A" "A" c2Later (by decide) (by decide) (by decide)
  exact ⟨by decide, by decide, by decide, h.1, h.2⟩

/-- Claim C1, counterexample: the nested same-name scenario produces
one span, not two, because the second enter overwrites the open frame
of the first and the second exit then finds no frame. -/
theorem c1_two_spans_refuted :
    (rows_from_bt2_iterator none c1Events).length ≠ 2 := by
  decide

/-- Claim C1 (corrected): the nested same-name scenario emits exactly
one span, named OCN, for the inner enter/exit pair, with start
1000000, end 2000000 and depth 1. -/
theorem c1_nested_same_name_single_span :
    rows_from_bt2_iterator none c1Events =
      [{ component := "OCN", start := 1000000, depth := 1, pet := 0,
         model_component := "OCN/OCN", end_ := 2000000, duration_s := 1000000 }] := by
  decide

/-- Claim C5 (confirmed): an exit whose component has no open frame in
its unit emits no span (the output list is unchanged), only decrements
the depth counter flooring at zero, and leaves the depth nonnegative;
the transition is a total function, so no error is raised. -/
theorem c5_unmatched_exit_tolerated (s : PState) (p : Nat) (ts : Int) (c : String)
    (h : s.active p c = none) :
    (exitStep s p ts c).out = s.out ∧
    (exitStep s p ts c).depth p = max 0 (s.depth p - 1) ∧
    0 ≤ (exitStep s p ts c).depth p := by
  refine ⟨?_, ?_, ?_⟩
  · simp [exitStep, h]
  · simp [exitStep, updPet]
  · simp only [exitStep, updPet, if_pos rfl]
    exact le_max_left 0 _

/-- Claim C5, witness: an exit for OCN on the empty state. -/
theorem c5_unmatched_exit_witness :
    initPState.active 0 "OCN" = none ∧
    (exitStep initPState 0 5 "OCN").out = initPState.out ∧
    (exitStep initPState 0 5 "OCN").depth 0 = max 0 (initPState.depth 0 - 1) ∧
    0 ≤ (exitStep initPState 0 5 "OCN").depth 0 :=
  ⟨rfl, c5_unmatched_exit_tolerated initPState 0 5 "OCN" rfl⟩

/-- Claim C10 (confirmed): an exit with no matching open frame still
decrements the depth counter of its unit, so a frame opened afterwards
on that unit records a depth one lower than before the unmatched
exit. -/
theorem c10_unmatched_exit_lowers_later_depth (s : PState) (p : Nat)
    (ts ts2 : Int) (c c2 : String)
    (_hno : s.active p c = none) (hpos : 1 ≤ s.depth p) :
    (exitStep s p ts c).depth p = s.depth p - 1 ∧
    ((enterStep (exitStep s p ts c) p ts2 c2).active p c2).map Frame.depth
      = some (s.depth p - 1) := by
  have hd : (exitStep s p ts c).depth p = s.depth p - 1 := by
    simp only [exitStep, updPet, if_pos rfl]
    simp only [ite_true, eq_self_iff_true, if_true]
    exact max_eq_right (by omega)
  refine ⟨hd, ?_⟩
  have hact : (enterStep (exitStep s p ts c) p ts2 c2).active p c2 =
      some { component := c2, start := ts2, depth := (exitStep s p ts c).depth p,
             pet := p,
             model_component :=
               String.intercalate "/" ((exitStep s p ts c).stacks_ p ++ [c2]) } := by
    simp [enterStep, updActive]
  rw [hact]
  exact congrArg some hd

/-- Claim C10, witness: after one enter the depth of unit 0 is 1; an
unmatched exit lowers it to 0, and the next frame opened records depth
0. -/
theorem c10_unmatched_exit_witness :
    (enterStep initPState 0 0 "ATM").active 0 "XYZ" = none ∧
    1 ≤ (enterStep initPState 0 0 "ATM").depth 0 ∧
    (exitStep (enterStep initPState 0 0 "ATM") 0 7 "XYZ").depth 0
      = (enterStep initPState 0 0 "ATM").depth 0 - 1 ∧
    ((enterStep (exitStep (enterStep initPState 0 0 "ATM") 0 7 "XYZ") 0 9 "OCN").active 0 "OCN").map Frame.depth
      = some ((enterStep initPState 0 0 "ATM").depth 0 - 1) := by
  have h := c10_unmatched_exit_lowers_later_depth (enterStep initPState 0 0 "ATM")
    0 7 9 "XYZ" "OCN" (by decide) (by decide)
  exact ⟨by decide, by decide, h.1, h.2⟩

/-- Claim C6 (confirmed): two consecutive rows with the same pet,
component and depth merge exactly when the gap between the start of
the second and the end of the first is at most the threshold; the
merged row keeps the start of the first and its duration is the sum of
both durations, while above the threshold both rows survive
unchanged. -/
theorem c6_adjacent_merge_gap_rule (gap : Int) (a b : MSpan)
    (hpet : b.pet = a.pet) (hcomp : b.model_component = a.model_component)
    (hdepth : b.depth = a.depth) :
    (b.start - a.end_ ≤ gap →
      mergeScan gap [a, b] =
        [{ a with end_ := b.end_, duration_s := a.duration_s + b.duration_s }]) ∧
    (gap < b.start - a.end_ → mergeScan gap [a, b] = [a, b]) := by
  constructor
  · intro hgap
    have hc : canMerge gap a b := ⟨hpet, hcomp, hdepth, hgap⟩
    simp [mergeScan, mergeGo, hc, absorb]
  · intro hgap
    have hc : ¬ canMerge gap a b := by
      rintro ⟨-, -, -, hle⟩
      omega
    simp [mergeScan, mergeGo, hc]

/-- Claim C6, witness: the two ATM rows with a 500 ns gap merge under a
1000 ns threshold into one row of duration 2000 starting at 0, and
stay separate under a 100 ns threshold. -/
theorem c6_gap_rule_witness :
    mergeScan 1000 [c6A, c6B] =
      [{ model_component := "ATM", start := 0, end_ := 2500,
         duration_s := 2000, depth := 0, pet := 2 }] ∧
    mergeScan 100 [c6A, c6B] = [c6A, c6B] := by
  constructor
  · rw [(c6_adjacent_merge_gap_rule 1000 c6A c6B (by decide) (by decide) (by decide)).1 (by decide)]
    rfl
  · exact (c6_adjacent_merge_gap_rule 100 c6A c6B (by decide) (by decide) (by decide)).2 (by decide)

/-- Claim C7 (confirmed): summarising one case with two outputs whose
durations for component ATM are 1, 2, 3 and 4, 5, 6 seconds yields a
single combine row with tmin 1 (min of the per-output minima), tmax 6
(max of the per-output maxima) and tavg 7/2 (mean of the two
per-output means), with 3 hits on average. -/
theorem c7_combine_row_scenario :
    summariseCaseCombine c7Rows =
      [{ model_component := "ATM", hits := 3, tmin := 1, tmax := 6, tavg := 7/2 }] := by
  simp only [summariseCaseCombine, perOutputRows, combineRows, c7Rows, dedupFirst,
    dedupSeen, listMin, listMax, listMean, List.map, List.filter]
  norm_num

theorem gatherOutputs_all_traceout (rn : String) (os : List BatchOutput)
    (h : ∀ o ∈ os, o.hasTraceout = true) :
    gatherOutputs rn os =
      Except.ok ((os.filter (fun o => !(expected_outputs_exist o))).map
        (fun o => { runName := rn, output := o })) := by
  induction os with
  | nil => rfl
  | cons o os ih =>
    have ho := h o (List.mem_cons_self o os)
    have hrest := ih (fun o2 h2 => h o2 (List.mem_cons_of_mem _ h2))
    by_cases he : expected_outputs_exist o = true
    · simp [gatherOutputs, ho, he, hrest, List.filter_cons]
    · simp [gatherOutputs, ho, he, hrest, List.filter_cons, Except.map]

/-- Claim C8 (confirmed): for a run all of whose discovered outputs
have a traceout directory, the gathered jobs are exactly the outputs
for which not both expected artifacts exist on disk (skip if and only
if both exist), and the batch results do not depend on the worker
count. -/
theorem c8_skip_iff_outputs_exist (r : BatchRun) (w w2 : Nat)
    (htr : ∀ o ∈ r.outputs, o.hasTraceout = true)
    (hne : r.outputs ≠ []) :
    gatherRunJobs r =
      Except.ok ((r.outputs.filter (fun o => !(o.tsJsonExists && o.flameHtmlExists))).map
        (fun o => { runName := r.runName, output := o })) ∧
    runBatchJobs w [r] = runBatchJobs w2 [r] := by
  constructor
  · unfold gatherRunJobs
    rw [if_neg (by simpa using hne)]
    exact gatherOutputs_all_traceout r.runName r.outputs htr
  · rfl

/-- Claim C8, witness: of three discovered outputs with one already
having both artifacts, exactly two jobs are gathered and one output is
skipped, for worker counts 1 and 8 alike. -/
theorem c8_skip_iff_outputs_exist_witness :
    (∀ o ∈ c8Run.outputs, o.hasTraceout = true) ∧
    gatherRunJobs c8Run =
      Except.ok [{ runName := "case", output := c8Out0 },
                 { runName := "case", output := c8Out2 }] ∧
    (c8Run.outputs.filter (fun o => expected_outputs_exist o)).length = 1 ∧
    runBatchJobs 1 [c8Run] = runBatchJobs 8 [c8Run] := by
  have h := c8_skip_iff_outputs_exist c8Run 1 8 (by decide) (by decide)
  refine ⟨by decide, ?_, by decide, h.2⟩
  rw [h.1]
  rfl

theorem gatherJobs_error_of_mem (runs : List BatchRun) (r : BatchRun)
    (hr : r ∈ runs) (he : ∃ e0, gatherRunJobs r = Except.error e0) :
    ∃ e, gatherJobs runs = Except.error e := by
  induction runs with
  | nil => cases hr
  | cons r2 rs ih =>
    rcases List.mem_cons.mp hr with heq | hmem
    · subst heq
      obtain ⟨e0, he0⟩ := he
      exact ⟨e0, by simp [gatherJobs, he0]⟩
    · cases hgr : gatherRunJobs r2 with
      | error e2 => exact ⟨e2, by simp [gatherJobs, hgr]⟩
      | ok js =>
        obtain ⟨e, hi⟩ := ih hmem
        exact ⟨e, by simp [gatherJobs, hgr, hi, Except.map]⟩

/-- Claim C3 (corrected): a missing stream or metadata file surfaces
while a job executes and is caught at the job boundary, failing only
that job while every job of the batch still yields its own outcome;
but a declared run with no qualifying output sub-directory raises
before any job is submitted and aborts the whole batch. -/
theorem c3_job_level_errors_isolated (runs : List BatchRun) (r : BatchRun)
    (jobs : List Job) (j : Job)
    (hr : r ∈ runs) (hempty : r.outputs = [])
    (_hj : j ∈ jobs) (hbad : j.output.streamsOk = false) :
    (∃ e, gatherJobs runs = Except.error e) ∧
    runOneJob j = (1, "Failed: stream file not found") ∧
    (jobs.map runOneJob).length = jobs.length ∧
    (∀ j2 ∈ jobs, j2.output.streamsOk = true → runOneJob j2 = (0, "success!")) := by
  refine ⟨?_, ?_, by simp, ?_⟩
  · exact gatherJobs_error_of_mem runs r hr
      ⟨"no output dirs found", by simp [gatherRunJobs, hempty]⟩
  · simp [runOneJob, hbad]
  · intro j2 _ h2
    simp [runOneJob, h2]

/-- Claim C3, counterexample: one declared run with no output
directories aborts the whole batch with an error, although a sibling
run has a healthy output whose job would otherwise have been gathered
and run. -/
theorem c3_batch_abort_counterexample :
    gatherJobs [c3EmptyRun, c3GoodRun] = Except.error "no output dirs found" ∧
    gatherRunJobs c3GoodRun =
      Except.ok [{ runName := "good",
                   output := { odName := "output000", hasTraceout := true,
                               tsJsonExists := false, flameHtmlExists := false,
                               streamsOk := true } }] :=
  ⟨rfl, rfl⟩

/-- Claim C3, witness: the amended behaviour at concrete runs and
jobs. -/
theorem c3_job_level_errors_witness :
    c3EmptyRun ∈ [c3EmptyRun, c3GoodRun] ∧ c3EmptyRun.outputs = [] ∧
    c3BadJob ∈ [c3BadJob, c3GoodJob] ∧ c3BadJob.output.streamsOk = false ∧
    (∃ e, gatherJobs [c3EmptyRun, c3GoodRun] = Except.error e) ∧
    runOneJob c3BadJob = (1, "Failed: stream file not found") ∧
    ([c3BadJob, c3GoodJob].map runOneJob).length = [c3BadJob, c3GoodJob].length ∧
    (∀ j2 ∈ [c3BadJob, c3GoodJob], j2.output.streamsOk = true →
      runOneJob j2 = (0, "success!")) := by
  have h := c3_job_level_errors_isolated [c3EmptyRun, c3GoodRun] c3EmptyRun
    [c3BadJob, c3GoodJob] c3BadJob (by decide) (by decide) (by decide) (by decide)
  exact ⟨by decide, by decide, by decide, by decide, h.1, h.2.1, h.2.2.1, h.2.2.2⟩

theorem pySlice_none_none {α : Type} (l : List α) : pySlice none none l = l := by
  simp [pySlice]

theorem mem_of_mem_pySlice {α : Type} (s? e? : Option Int) (l : List α) (a : α)
    (h : a ∈ pySlice s? e? l) : a ∈ l := by
  unfold pySlice at h
  exact List.mem_of_mem_take (List.mem_of_mem_drop h)

theorem mem_of_mem_dedupSeen {κ : Type} [DecidableEq κ] (l : List κ) (seen : List κ)
    (a : κ) (h : a ∈ dedupSeen seen l) : a ∈ l := by
  induction l generalizing seen with
  | nil => simp [dedupSeen] at h
  | cons k ks ih =>
    rw [dedupSeen] at h
    by_cases hs : k ∈ seen
    · rw [if_pos hs] at h
      exact List.mem_cons_of_mem _ (ih seen h)
    · rw [if_neg hs] at h
      rcases List.mem_cons.mp h with heq | hmem
      · exact heq ▸ List.mem_cons_self k ks
      · exact List.mem_cons_of_mem _ (ih (k :: seen) hmem)

theorem mem_of_mem_dedupFirst {κ : Type} [DecidableEq κ] (l : List κ) (a : κ)
    (h : a ∈ dedupFirst l) : a ∈ l :=
  mem_of_mem_dedupSeen l [] a h

theorem pySlice_eq_nil {α : Type} (s e : Int) (l : List α)
    (hs : 0 ≤ s) (h : (l.length : Int) ≤ s) :
    pySlice (some s) (some e) l = [] := by
  simp only [pySlice, clampIdx]
  rw [if_neg (show ¬ s < 0 by omega)]
  apply List.drop_eq_nil_of_le
  rw [List.length_take]
  omega

/-- Claim C9 (confirmed): a (component, pet) series whose per-group
slice is empty contributes no row to the sliced table and no entry to
the downstream aggregated view, and slicing with both bounds unset
returns the table unchanged. -/
theorem c9_empty_slice_groups_dropped (start? end? : Option Int) (rows : List SRow)
    (k : String × Nat)
    (hempty : pySlice start? end?
      ((rows.filter (fun r => srowKey r = k)).mergeSort startLe) = []) :
    (∀ r ∈ slicePerGroup start? end? rows, srowKey r ≠ k) ∧
    (∀ entry ∈ aggByKey (slicePerGroup start? end? rows), entry.1 ≠ k) ∧
    slicePerGroup none none rows = rows := by
  have hmain : ∀ r ∈ slicePerGroup start? end? rows, srowKey r ≠ k := by
    intro r hr hk
    unfold slicePerGroup at hr
    by_cases hb : start? = none ∧ end? = none
    · rw [if_pos hb] at hr
      obtain ⟨h1, h2⟩ := hb
      subst h1
      subst h2
      rw [pySlice_none_none] at hempty
      have hmem : r ∈ (rows.filter (fun r2 => srowKey r2 = k)).mergeSort startLe :=
        List.mem_mergeSort.mpr (List.mem_filter.mpr ⟨hr, by simp [hk]⟩)
      rw [hempty] at hmem
      cases hmem
    · rw [if_neg hb] at hr
      obtain ⟨k2, _, hrk2⟩ := List.mem_flatMap.mp hr
      have hrfilt := List.mem_mergeSort.mp (mem_of_mem_pySlice _ _ _ _ hrk2)
      have hkr : srowKey r = k2 := of_decide_eq_true (List.mem_filter.mp hrfilt).2
      by_cases hkk : k2 = k
      · subst hkk
        rw [hempty] at hrk2
        cases hrk2
      · exact hkk (hkr ▸ hk)
  refine ⟨hmain, ?_, ?_⟩
  · intro entry hent hke
    unfold aggByKey at hent
    obtain ⟨k2, hk2, hfk⟩ := List.mem_map.mp hent
    obtain ⟨r, hrmem, hrk⟩ :=
      List.mem_map.mp (mem_of_mem_dedupFirst _ _ hk2)
    rw [← hfk] at hke
    exact hmain r hrmem (hrk.trans hke)
  · simp [slicePerGroup]

/-- Claim C9, witness: slicing two one-row series from index 5 empties
the ATM series, which then appears neither in the sliced table nor in
the aggregated view; with both bounds unset the table is unchanged. -/
theorem c9_empty_slice_witness :
    pySlice (some 5) (some 10)
      ((c9Rows.filter (fun r => srowKey r = ("ATM", 0))).mergeSort startLe) = [] ∧
    (∀ r ∈ slicePerGroup (some 5) (some 10) c9Rows, srowKey r ≠ ("ATM", 0)) ∧
    (∀ entry ∈ aggByKey (slicePerGroup (some 5) (some 10) c9Rows),
      entry.1 ≠ ("ATM", 0)) ∧
    slicePerGroup none none c9Rows = c9Rows := by
  have hlen : ((((c9Rows.filter (fun r => srowKey r = ("ATM", 0))).mergeSort
      startLe)).length : Int) ≤ 5 := by
    have h1 : ((c9Rows.filter (fun r => srowKey r = ("ATM", 0))).mergeSort
        startLe).length = (c9Rows.filter (fun r => srowKey r = ("ATM", 0))).length :=
      List.length_mergeSort _
    have h2 : (c9Rows.filter (fun r => srowKey r = ("ATM", 0))).length ≤ c9Rows.length :=
      List.length_filter_le _ _
    have h3 : c9Rows.length = 2 := rfl
    omega
  have hempty := pySlice_eq_nil 5 10
    ((c9Rows.filter (fun r => srowKey r = ("ATM", 0))).mergeSort startLe)
    (by omega) hlen
  have h := c9_empty_slice_groups_dropped (some 5) (some 10) c9Rows ("ATM", 0) hempty
  exact ⟨hempty, h.1, h.2.1, h.2.2⟩

theorem sameKS_refl (a : MSpan) : sameKS a a :=
  ⟨rfl, rfl, rfl, rfl⟩

theorem sameKS_trans (a b c : MSpan) (h1 : sameKS a b) (h2 : sameKS b c) : sameKS a c :=
  ⟨h1.1.trans h2.1, h1.2.1.trans h2.2.1, h1.2.2.1.trans h2.2.2.1, h1.2.2.2.trans h2.2.2.2⟩

theorem sameKS_absorb (a b : MSpan) : sameKS (absorb a b) a :=
  ⟨rfl, rfl, rfl, rfl⟩

theorem spanKey_eq_of_sameKS (a b : MSpan) (h : sameKS a b) : spanKey a = spanKey b := by
  obtain ⟨h1, h2, h3, h4⟩ := h
  unfold spanKey
  rw [h1, h2, h3, h4]

theorem canMerge_congr_right (gap : Int) (cur h r : MSpan) (hks : sameKS h r) :
    canMerge gap cur h ↔ canMerge gap cur r := by
  unfold canMerge
  rw [hks.1, hks.2.1, hks.2.2.1, hks.2.2.2]

theorem spanLe_trans (a b c : MSpan) (h1 : spanLe a b = true) (h2 : spanLe b c = true) :
    spanLe a c = true := by
  simp only [spanLe, decide_eq_true_eq] at h1 h2 ⊢
  exact le_trans h1 h2

theorem spanLe_total (a b : MSpan) : (spanLe a b || spanLe b a) = true := by
  simp only [spanLe, Bool.or_eq_true, decide_eq_true_eq]
  exact le_total _ _

theorem mergeGo_shape (gap : Int) :
    ∀ (l : List MSpan) (cur : MSpan),
      ∃ h t, mergeGo gap cur l = h :: t ∧ sameKS h cur := by
  intro l
  induction l with
  | nil => exact fun cur => ⟨cur, [], rfl, sameKS_refl cur⟩
  | cons r rs ih =>
    intro cur
    by_cases hc : canMerge gap cur r
    · obtain ⟨h, t, heq, hks⟩ := ih (absorb cur r)
      refine ⟨h, t, ?_, sameKS_trans _ _ _ hks (sameKS_absorb cur r)⟩
      simp only [mergeGo, if_pos hc]
      exact heq
    · exact ⟨cur, mergeGo gap r rs, by simp only [mergeGo, if_neg hc], sameKS_refl cur⟩

theorem mergeGo_chain_le (gap : Int) :
    ∀ (l : List MSpan) (cur : MSpan),
      List.Chain' (fun a b => spanLe a b = true) (cur :: l) →
      List.Chain' (fun a b => spanLe a b = true) (mergeGo gap cur l) := by
  intro l
  induction l with
  | nil =>
    intro cur _
    simp [mergeGo]
  | cons r rs ih =>
    intro cur hch
    rw [List.chain'_cons] at hch
    obtain ⟨h1, h2⟩ := hch
    by_cases hc : canMerge gap cur r
    · simp only [mergeGo, if_pos hc]
      apply ih (absorb cur r)
      cases rs with
      | nil => simp
      | cons r2 rs2 =>
        rw [List.chain'_cons] at h2 ⊢
        obtain ⟨h21, h22⟩ := h2
        exact ⟨spanLe_trans cur r r2 h1 h21, h22⟩
    · simp only [mergeGo, if_neg hc]
      obtain ⟨hh, ht, heq, hks⟩ := mergeGo_shape gap rs r
      rw [heq, List.chain'_cons]
      constructor
      · simp only [spanLe] at h1 ⊢
        rw [spanKey_eq_of_sameKS _ _ hks]
        exact h1
      · have hrest := ih r h2
        rw [heq] at hrest
        exact hrest

theorem mergeGo_chain_separated (gap : Int) :
    ∀ (l : List MSpan) (cur : MSpan),
      List.Chain' (fun a b => ¬ canMerge gap a b) (mergeGo gap cur l) := by
  intro l
  induction l with
  | nil =>
    intro cur
    simp [mergeGo]
  | cons r rs ih =>
    intro cur
    by_cases hc : canMerge gap cur r
    · simp only [mergeGo, if_pos hc]
      exact ih (absorb cur r)
    · simp only [mergeGo, if_neg hc]
      obtain ⟨hh, ht, heq, hks⟩ := mergeGo_shape gap rs r
      rw [heq, List.chain'_cons]
      constructor
      · intro hcan
        exact hc ((canMerge_congr_right gap cur hh r hks).mp hcan)
      · have hrest := ih r
        rw [heq] at hrest
        exact hrest

theorem mergeGo_id (gap : Int) :
    ∀ (l : List MSpan) (cur : MSpan),
      List.Chain' (fun a b => ¬ canMerge gap a b) (cur :: l) →
      mergeGo gap cur l = cur :: l := by
  intro l
  induction l with
  | nil => intro cur _; rfl
  | cons r rs ih =>
    intro cur hch
    rw [List.chain'_cons] at hch
    obtain ⟨h1, h2⟩ := hch
    simp only [mergeGo, if_neg h1]
    rw [ih r h2]

theorem mergeScan_id (gap : Int) (l : List MSpan)
    (h : List.Chain' (fun a b => ¬ canMerge gap a b) l) : mergeScan gap l = l := by
  cases l with
  | nil => rfl
  | cons r rs => exact mergeGo_id gap rs r h

theorem mergeScan_chain_le (gap : Int) (l : List MSpan)
    (h : List.Chain' (fun a b => spanLe a b = true) l) :
    List.Chain' (fun a b => spanLe a b = true) (mergeScan gap l) := by
  cases l with
  | nil => exact List.chain'_nil
  | cons r rs => exact mergeGo_chain_le gap rs r h

theorem mergeScan_chain_separated (gap : Int) (l : List MSpan) :
    List.Chain' (fun a b => ¬ canMerge gap a b) (mergeScan gap l) := by
  cases l with
  | nil => exact List.chain'_nil
  | cons r rs => exact mergeGo_chain_separated gap rs r

theorem chain_le_head (a : MSpan) :
    ∀ (l : List MSpan), List.Chain' (fun x y => spanLe x y = true) (a :: l) →
      ∀ b ∈ l, spanLe a b = true := by
  intro l
  induction l generalizing a with
  | nil => intro _ b hb; cases hb
  | cons c l2 ih =>
    intro h b hb
    rw [List.chain'_cons] at h
    obtain ⟨h1, h2⟩ := h
    rcases List.mem_cons.mp hb with rfl | hb2
    · exact h1
    · exact spanLe_trans a c b h1 (ih c h2 b hb2)

theorem chain_le_pairwise :
    ∀ (l : List MSpan), List.Chain' (fun a b => spanLe a b = true) l →
      List.Pairwise (fun a b => spanLe a b = true) l := by
  intro l
  induction l with
  | nil => intro _; exact List.Pairwise.nil
  | cons a l2 ih =>
    intro h
    refine List.Pairwise.cons (chain_le_head a l2 h) (ih ?_)
    exact (List.chain'_cons'.mp h).2

/-- Claim C4 (confirmed): the adjacent-merge step, consisting of the
sort by (pet, model_component, depth, start) followed by the linear
scan, is idempotent: applying it twice with the same gap threshold
yields exactly the rows of a single application. -/
theorem c4_merge_adjacent_idempotent (gap : Int) (l : List MSpan) :
    mergeAdjacent gap (mergeAdjacent gap l) = mergeAdjacent gap l := by
  unfold mergeAdjacent
  have hsorted : List.Pairwise (fun a b => spanLe a b = true) (l.mergeSort spanLe) :=
    List.sorted_mergeSort spanLe_trans spanLe_total l
  have hm_le := mergeScan_chain_le gap _ hsorted.chain'
  rw [List.mergeSort_of_sorted (chain_le_pairwise _ hm_le)]
  exact mergeScan_id gap _ (mergeScan_chain_separated gap _)

end EsmfTrace
